import Mathlib

/-!
Verification of the healthcare-query-tool repository.

The repository is a natural-language → FHIR query tool.  The frontend
(TypeScript, under `frontend/src`) is embedded here directly from its
source: `lib/utils.ts` (`topNWithOther`, and the FHIR helpers re-exported
as `lib/fhir-utils`), `types/fhir.ts` (`extractQueryUrl`, `calculateAge`,
`extractPatientName`, `extractState`, `extractCountry`, `isPatientAlive`,
`processPatients`), `types/index.ts` (result records) and
`components/PatientTable.tsx` (the fetch-effect decision logic).

The backend NLP compiler (`backend/app/nlp-service`: `medical_entities.py`,
`query_parser.py`, `fhir_builder.py`, `nlp_service.py`) is not part of the
sources available here; the definitions for it below are modelled from the
specification and are marked as such in their doc comments.
-/

namespace HQT

/-- Calendar date.  Dates travel through the code as ISO `YYYY-MM-DD`
strings; arithmetic only ever touches the year/month/day components, so we
embed a parsed date record (year as an integer, month and day 1-based). -/
structure Date where
  year : Int
  month : Nat
  day : Nat
deriving DecidableEq, Repr

/-- Embeds `calculateAge` from `frontend/src/types/fhir.ts` (an identical
copy lives in `components/PatientTable.tsx`): age is the year difference,
decremented when today's month/day precedes the birthday's month/day.
JavaScript's 0-based `getMonth` only ever appears in a difference, so the
1-based months used here are equivalent. -/
def calculateAge (birth today : Date) : Int :=
  let age := today.year - birth.year
  let monthDiff : Int := (today.month : Int) - (birth.month : Int)
  if monthDiff < 0 ∨ (monthDiff = 0 ∧ (today.day : Int) < (birth.day : Int)) then
    age - 1
  else
    age

/-- FHIR HumanName, from `frontend/src/types/fhir.ts` (`FHIRHumanName`);
the `prefix` field of the source is called `prefixList` here. -/
structure FHIRHumanName where
  use : Option String
  text : Option String
  family : Option String
  given : Option (List String)
  prefixList : Option (List String)
deriving DecidableEq, Repr

/-- FHIR Address, from `frontend/src/types/fhir.ts` (`FHIRAddress`);
only the fields the display pipeline reads are kept. -/
structure FHIRAddress where
  use : Option String
  state : Option String
  country : Option String
deriving DecidableEq, Repr

/-- FHIR Patient resource, from `frontend/src/types/fhir.ts`
(`FHIRPatient`).  `birthDate` is an optional ISO date string in the
source; it is embedded as an optional parsed `Date` (an absent or
unparseable string behaves like `none` for the display pipeline). -/
structure FHIRPatient where
  id : String
  name : Option (List FHIRHumanName)
  gender : Option String
  birthDate : Option Date
  address : Option (List FHIRAddress)
  deceasedBoolean : Option Bool
  deceasedDateTime : Option String
deriving DecidableEq, Repr

/-- Display record, from `frontend/src/types/index.ts`
(`PatientDisplayData`). -/
structure PatientDisplayData where
  id : String
  name : String
  gender : String
  age : String
  state : String
  country : String
  isAlive : String
deriving DecidableEq, Repr

/-- Join a list of strings with a separator (JavaScript's
`Array.prototype.join`). -/
def joinWith (sep : String) : List String → String
  | [] => ""
  | [x] => x
  | x :: y :: rest => x ++ sep ++ joinWith sep (y :: rest)

/-- Embeds `extractPatientName` from `frontend/src/types/fhir.ts`:
prefer the `official` name, fall back to the first; a truthy `text` wins;
otherwise join prefixes, given names and family with spaces, with "-" for
an empty result. -/
def extractPatientName (names : Option (List FHIRHumanName)) : String :=
  match names with
  | none => "-"
  | some [] => "-"
  | some (n0 :: rest) =>
    let official := (((n0 :: rest).find? (fun nm => nm.use = some "official")).getD n0)
    if official.text.getD "" ≠ "" then
      official.text.getD ""
    else
      let parts := official.prefixList.getD [] ++ official.given.getD [] ++
        [official.family.getD ""]
      let joined := joinWith " " parts
      if joined = "" then "-" else joined

/-- Embeds `extractState` from `frontend/src/types/fhir.ts`. -/
def extractState (addresses : Option (List FHIRAddress)) : String :=
  match addresses with
  | none => "-"
  | some [] => "-"
  | some (a0 :: rest) =>
    let home := (((a0 :: rest).find? (fun a => a.use = some "home")).getD a0)
    if home.state.getD "" = "" then "-" else home.state.getD ""

/-- Embeds `extractCountry` from `frontend/src/types/fhir.ts`. -/
def extractCountry (addresses : Option (List FHIRAddress)) : String :=
  match addresses with
  | none => "-"
  | some [] => "-"
  | some (a0 :: rest) =>
    let home := (((a0 :: rest).find? (fun a => a.use = some "home")).getD a0)
    if home.country.getD "" = "" then "-" else home.country.getD ""

/-- Embeds `isPatientAlive` from `frontend/src/types/fhir.ts`. -/
def isPatientAlive (p : FHIRPatient) : String :=
  if p.deceasedBoolean = some true ∨ p.deceasedDateTime.getD "" ≠ "" then "No"
  else if p.deceasedBoolean = some false then "Yes"
  else "-"

/-- JavaScript `s.charAt(0).toUpperCase() + s.slice(1)`. -/
def capFirst (s : String) : String :=
  match s.data with
  | [] => ""
  | c :: cs => String.mk (c.toUpper :: cs)

/-- The per-patient body of `processPatients` from
`frontend/src/types/fhir.ts`: ages are shown only when the computed age is
in (0, 100]; `today` is the browser's current date, passed explicitly. -/
def processPatient (today : Date) (p : FHIRPatient) : PatientDisplayData :=
  let ageDisplay :=
    match p.birthDate with
    | none => "-"
    | some b =>
      let ca := calculateAge b today
      if 0 < ca ∧ ca ≤ 100 then toString ca else "-"
  { id := if p.id = "" then "-" else p.id
    name := extractPatientName p.name
    gender := if p.gender.getD "" = "" then "-" else capFirst (p.gender.getD "")
    age := ageDisplay
    state := extractState p.address
    country := extractCountry p.address
    isAlive := isPatientAlive p }

/-- Embeds `processPatients` from `frontend/src/types/fhir.ts`: a `map`
of the per-patient conversion over the input list. -/
def processPatients (today : Date) (ps : List FHIRPatient) : List PatientDisplayData :=
  ps.map (processPatient today)

/-- Descending-by-value order used by `topNWithOther`'s
`sort((a, b) => b[1] - a[1])` comparator in `frontend/src/lib/utils.ts`. -/
def byValueDesc (a b : String × Nat) : Prop := b.2 ≤ a.2

instance : DecidableRel byValueDesc := fun a b =>
  inferInstanceAs (Decidable (b.2 ≤ a.2))

instance : IsTotal (String × Nat) byValueDesc where
  total a b := (Nat.le_total b.2 a.2).elim Or.inl Or.inr

instance : IsTrans (String × Nat) byValueDesc where
  trans _ _ _ hab hbc := Nat.le_trans hbc hab

/-- Sum of the values of a counts list. -/
def sumVals (l : List (String × Nat)) : Nat := (l.map Prod.snd).sum

/-- Embeds `topNWithOther` from `frontend/src/lib/utils.ts`.  The
`Record<string, number>` input is embedded as an association list (object
entries in insertion order); `Object.entries(...).sort(...)` is a stable
sort by descending value, the first `topN` entries are kept and the
remainder, when nonempty, is folded into a final `"Other"` entry holding
the remaining total. -/
def topNWithOther (counts : List (String × Nat)) (topN : Nat) :
    List (String × Nat) :=
  let entries := List.insertionSort byValueDesc counts
  let top := entries.take topN
  let other := entries.drop topN
  if other.length ≠ 0 then
    top ++ [("Other", sumVals other)]
  else
    top

/-- The whitespace class of JavaScript's regex `\s` (ASCII part plus the
Unicode space characters; line terminators are included). -/
def isJsWhitespace (c : Char) : Bool :=
  c = ' ' ∨ c = '\t' ∨ c = '\n' ∨ c = '\r' ∨ c = '\u000b' ∨ c = '\u000c' ∨
  c = '\u00a0' ∨ c = '\u1680' ∨ ('\u2000' ≤ c ∧ c ≤ '\u200a') ∨
  c = '\u2028' ∨ c = '\u2029' ∨ c = '\u202f' ∨ c = '\u205f' ∨
  c = '\u3000' ∨ c = '\ufeff'

/-- JavaScript line terminators: the characters regex `.` does not match. -/
def isLineTerm (c : Char) : Bool :=
  c = '\n' ∨ c = '\r' ∨ c = '\u2028' ∨ c = '\u2029'

/-- Backtracking outcome of matching `\s+(.+)$` against the characters
following a `GET` occurrence (the tail of the regex of `extractQueryUrl`
in `frontend/src/types/fhir.ts`).  `\s+` greedily takes the maximal
whitespace run; `.+$` then needs a nonempty line-terminator-free suffix
reaching the end of the input, backtracking `\s+` one character at a time
when the run swallowed the whole remainder. -/
def matchAfterGET (rest : List Char) : Option (List Char) :=
  let k := (rest.takeWhile isJsWhitespace).length
  if k = 0 then none
  else
    let suffix := rest.drop k
    if suffix ≠ [] then
      if suffix.all (fun c => !isLineTerm c) then some suffix else none
    else
      match rest.getLast? with
      | none => none
      | some last => if 2 ≤ k ∧ !isLineTerm last then some [last] else none

/-- Leftmost-match scan of `/GET\s+(.+)$/`: try the match at every
occurrence of the literal `GET`, earliest occurrence first. -/
def scanGET : List Char → Option (List Char)
  | [] => none
  | c :: cs =>
    if c = 'G' ∧ ['E', 'T'].isPrefixOf cs then
      match matchAfterGET (cs.drop 2) with
      | some r => some r
      | none => scanGET cs
    else scanGET cs

/-- Embeds `extractQueryUrl` from `frontend/src/types/fhir.ts`:
`fhirQuery.match(/GET\s+(.+)$/)`, returning the first capture group or
`null`. -/
def extractQueryUrl (fhirQuery : String) : Option String :=
  (scanGET fhirQuery.data).map String.mk

/-- The externally observable actions of `PatientTable`'s query effect. -/
inductive TableAction where
  | noAction : TableAction
  | reportError (msg : String) : TableAction
  | fetchData (url : String) : TableAction
deriving DecidableEq, Repr

/-- Embeds the `useEffect` body of
`frontend/src/components/PatientTable.tsx` (lines 166-174): a blank
`fhirQuery` returns without doing anything; a non-blank query whose URL
cannot be extracted sets the error "Invalid FHIR query format" without
fetching; otherwise the extracted URL is fetched. -/
def tableEffect (fhirQuery : String) : TableAction :=
  if fhirQuery = "" ∨ fhirQuery.data.all isJsWhitespace then
    .noAction
  else
    match extractQueryUrl fhirQuery with
    | none => .reportError "Invalid FHIR query format"
    | some url => .fetchData url

/-- Modelled from the spec: `ConditionEntry` of the Condition Vocabulary
(§3, §4.1); the vocabulary itself lives in the backend
`medical_entities.py`, which is not among the available sources.  A
canonical name, synonyms, and two coded identifiers (a classification
code and a terminology code). -/
structure ConditionEntry where
  canonical : String
  synonyms : List String
  codePrimary : String
  codeSecondary : String
deriving DecidableEq, Repr

/-- Lower-case a token and strip everything that is not a letter or a
digit (the spec's case-insensitive, punctuation-stripped normalization,
§4.1); applied to a phrase it also collapses the interior spaces, making
single- and multi-word surface forms comparable. -/
def normTok (s : String) : String :=
  String.mk ((s.data.filter Char.isAlphanum).map Char.toLower)

/-- Modelled from the spec: the static Condition Vocabulary (§2, §3);
the concrete table of `medical_entities.py` is not among the available
sources, so a representative table is reconstructed from the condition
names the repository's UI suggests (diabetes, hypertension, asthma,
anxiety, heart disease, ...) with classification/terminology code pairs. -/
def vocabulary : List ConditionEntry :=
  [ ⟨"diabetes", ["diabetic"], "E11", "44054006"⟩,
    ⟨"hypertension", ["high blood pressure"], "I10", "38341003"⟩,
    ⟨"asthma", ["asthmatic"], "J45", "195967001"⟩,
    ⟨"anxiety", [], "F41", "48694002"⟩,
    ⟨"heart disease", ["cardiac disease"], "I51", "56265001"⟩,
    ⟨"depression", ["depressed"], "F32", "35489007"⟩,
    ⟨"obesity", ["obese"], "E66", "414916001"⟩,
    ⟨"stroke", [], "I63", "230690007"⟩,
    ⟨"arthritis", ["arthritic"], "M19", "3723001"⟩,
    ⟨"pneumonia", [], "J18", "233604007"⟩ ]

/-- Modelled from the spec: `lookup(surface_form)` of the Condition
Vocabulary (§4.1, backend `medical_entities.py` missing): find the entry
one of whose normalized surface forms (canonical name or synonym) equals
the normalized input. -/
def lookupCondition (surface : String) : Option ConditionEntry :=
  vocabulary.find? (fun e =>
    normTok surface = normTok e.canonical ∨
    (e.synonyms.map normTok).contains (normTok surface))

/-- Whitespace splitter: accumulate the current word (reversed) while
walking the character list, emitting a token at each whitespace boundary. -/
def tokWs (cur : List Char) : List Char → List String
  | [] => if cur = [] then [] else [String.mk cur.reverse]
  | c :: cs =>
    if c.isWhitespace then
      if cur = [] then tokWs [] cs else String.mk cur.reverse :: tokWs [] cs
    else
      tokWs (c :: cur) cs

/-- Whitespace tokenization preserving the original casing of each token
(§4.2 step 1). -/
def tokenize (text : String) : List String :=
  tokWs [] text.data

/-- Does `needle` occur as a contiguous run inside `hay`? -/
def containsSub (needle : List Char) : List Char → Bool
  | [] => needle.isPrefixOf []
  | c :: cs => needle.isPrefixOf (c :: cs) || containsSub needle cs

/-- Modelled from the spec: vocabulary scan of the Entity Recognizer
(§4.2 steps 2-3, backend sources missing): at each position prefer the
longest synonym-phrase match (two-word phrases before single words), and
take the first position at which anything matches. -/
def findVocabMention : List String → Option String
  | [] => none
  | a :: rest =>
    let oneWord : Option String :=
      if (lookupCondition a).isSome then some a else none
    let best : Option String :=
      match rest with
      | [] => oneWord
      | b :: _ =>
        let two := a ++ " " ++ b
        if (lookupCondition two).isSome then some two else oneWord
    match best with
    | some m => some m
    | none => findVocabMention rest

/-- Modelled from the spec: detection of a condition-like mention that is
not in the vocabulary (§4.3, §8: "I have XYZ-disease with an unlisted
condition name always yields the UNSUPPORTED outcome").  A token whose
normalized form contains "disease" or "illness" is treated as a condition
mention even when the vocabulary cannot resolve it. -/
def findUnknownMention (toks : List String) : Option String :=
  toks.find? (fun t =>
    containsSub "disease".data (normTok t).data ||
    containsSub "illness".data (normTok t).data)

/-- Modelled from the spec: the condition-mention field of
`recognize` (§4.2): the first vocabulary match wins; otherwise the first
condition-like unknown token is reported as the mention. -/
def findCondition (toks : List String) : Option String :=
  match findVocabMention toks with
  | some m => some m
  | none => findUnknownMention toks

/-- Age comparator of an `AgeConstraint` (§3). -/
inductive Comparator where
  | over : Comparator
  | under : Comparator
  | between : Comparator
deriving DecidableEq, Repr

/-- `AgeConstraint` of the spec's data model (§3): a comparator with
optional integer bounds in years. -/
structure AgeConstraint where
  comparator : Comparator
  low : Option Nat
  high : Option Nat
deriving DecidableEq, Repr

/-- Decimal reading of a nonempty all-digit character list. -/
def digitsToNat? (cs : List Char) : Option Nat :=
  if cs ≠ [] ∧ cs.all Char.isDigit then
    some (cs.foldl (fun acc c => acc * 10 + (c.toNat - 48)) 0)
  else
    Option.none

/-- Parse a normalized token as a decimal natural number. -/
def tokNat? (t : String) : Option Nat :=
  digitsToNat? (normTok t).data

/-- Modelled from the spec: a candidate age number is accepted only when
it is a positive integer at most 130 (§4.2 step 4). -/
def ageNum (t : String) : Option Nat :=
  match tokNat? t with
  | some n => if 1 ≤ n ∧ n ≤ 130 then some n else Option.none
  | Option.none => Option.none

/-- Modelled from the spec: combination of the two bounds of a
"between N and M" phrase (§4.3, §7): the bounds are put in increasing
order, and equal bounds (non-increasing even after the swap) yield no age
constraint. -/
def mkBetween (x y : Nat) : Option AgeConstraint :=
  if x ≠ y then some ⟨.between, some (min x y), some (max x y)⟩ else none

/-- Modelled from the spec: the age pattern recognized at one token
position — "over N", "above N", "under N", "below N" or
"between N and M" starting at the current token (§4.2 step 4, §4.3).
A pattern whose number fails validation, or a "between" whose bounds are
non-increasing after the swap, recognizes nothing here. -/
def scanStep (t : String) (rest : List String) : Option AgeConstraint :=
  let n := normTok t
  if n = "between" then
    match rest with
    | a :: c :: b :: _ =>
      if normTok c = "and" then
        match ageNum a, ageNum b with
        | some x, some y => mkBetween x y
        | _, _ => Option.none
      else Option.none
    | _ => Option.none
  else if n = "over" ∨ n = "above" then
    match rest with
    | a :: _ => (ageNum a).map (fun x => ⟨.over, some x, Option.none⟩)
    | [] => Option.none
  else if n = "under" ∨ n = "below" then
    match rest with
    | a :: _ => (ageNum a).map (fun x => ⟨.under, Option.none, some x⟩)
    | [] => Option.none
  else Option.none

/-- Modelled from the spec: left-to-right scan for the comparator-first
age patterns (§4.2 step 4): the first position recognizing a pattern
wins; a failed candidate (for example an out-of-range number) just lets
the scan continue, so malformed age phrases degrade to "no age
constraint", never an error. -/
def scanAgePatterns : List String → Option AgeConstraint
  | [] => Option.none
  | t :: rest =>
    match scanStep t rest with
    | some c => some c
    | Option.none => scanAgePatterns rest

/-- Modelled from the spec: the numeric part of the pattern
"N years of age" (§4.2 step 4): the first validated number directly
followed by the words "years of age". -/
def scanYearsNum : List String → Option Nat
  | a :: b :: c :: d :: rest =>
    match ageNum a with
    | some x =>
      if normTok b = "years" ∧ normTok c = "of" ∧ normTok d = "age" then some x
      else scanYearsNum (b :: c :: d :: rest)
    | none => scanYearsNum (b :: c :: d :: rest)
  | _ => none

/-- Modelled from the spec: the pattern "N years of age" combined with a
comparator word found elsewhere in the sentence (§4.2 step 4). -/
def yearsOfAgePattern (toks : List String) : Option AgeConstraint :=
  match scanYearsNum toks with
  | none => none
  | some x =>
    if toks.any (fun t => normTok t = "over" ∨ normTok t = "above") then
      some ⟨.over, some x, none⟩
    else if toks.any (fun t => normTok t = "under" ∨ normTok t = "below") then
      some ⟨.under, none, some x⟩
    else none

/-- Modelled from the spec: the age-expression field of `recognize`
(§4.2 step 4): the fixed comparator patterns first, then the
"N years of age" fallback. -/
def findAge (toks : List String) : Option AgeConstraint :=
  match scanAgePatterns toks with
  | some c => some c
  | none => yearsOfAgePattern toks

/-- Gender of the spec's data model (§3): a three-valued enum. -/
inductive Gender where
  | male : Gender
  | female : Gender
  | none : Gender
deriving DecidableEq, Repr

/-- Modelled from the spec: gender recognition from a small closed
vocabulary (§4.2 step 5), the first-occurring mention winning when
contradictory words appear. -/
def findGender : List String → Gender
  | [] => .none
  | t :: rest =>
    let n := normTok t
    if n = "female" ∨ n = "woman" ∨ n = "girl" ∨ n = "f" then .female
    else if n = "male" ∨ n = "man" ∨ n = "boy" ∨ n = "m" then .male
    else findGender rest

/-- Modelled from the spec: name-fragment recognition (§4.2 step 6): the
token following the trigger "named", or the token following the trigger
phrase "name starts with", case-preserved. -/
def findName : List String → Option String
  | [] => Option.none
  | t :: rest =>
    if normTok t = "named" then rest.head?
    else if normTok t = "name" then
      match rest with
      | b :: c :: x :: _ =>
        if normTok b = "starts" ∧ normTok c = "with" then some x else findName rest
      | _ => findName rest
    else findName rest

/-- `RecognizedEntities` of the spec's data model (§3); the raw age
expression is carried already converted to its `AgeConstraint` (the
conversion rules of §4.2 step 4 / §4.3 are folded into recognition, which
leaves the §4.3 parser a pass-through for the age field). -/
structure RecognizedEntities where
  conditionMention : Option String
  ageExpression : Option AgeConstraint
  genderToken : Gender
  nameFragment : Option String
deriving DecidableEq, Repr

/-- Modelled from the spec: `recognize(text)` of the Entity Recognizer
(§4.2, backend sources missing): tokenize and extract the four entity
kinds independently.  Total by construction: every input string, however
malformed, yields a (possibly all-none) structure. -/
def recognize (text : String) : RecognizedEntities :=
  let toks := tokenize text
  ⟨findCondition toks, findAge toks, findGender toks, findName toks⟩

/-- Condition slot of `ParsedCriteria` (§3): a resolved vocabulary entry,
the UNSUPPORTED marker, or no condition asked. -/
inductive ConditionSlot where
  | entry (e : ConditionEntry) : ConditionSlot
  | unsupported : ConditionSlot
  | none : ConditionSlot
deriving DecidableEq, Repr

/-- `ParsedCriteria` of the spec's data model (§3). -/
structure ParsedCriteria where
  condition : ConditionSlot
  age : Option AgeConstraint
  gender : Gender
  nameStart : Option String
deriving DecidableEq, Repr

/-- Modelled from the spec: `parse(entities)` of the Criteria Parser
(§4.3, backend `query_parser.py` missing): a found mention that the
vocabulary cannot resolve becomes the UNSUPPORTED marker — distinct from
"no condition asked"; the demographic fields pass through. -/
def parseEntities (r : RecognizedEntities) : ParsedCriteria :=
  { condition :=
      match r.conditionMention with
      | some m =>
        match lookupCondition m with
        | some e => .entry e
        | Option.none => .unsupported
      | Option.none => .none
    age := r.ageExpression
    gender := r.genderToken
    nameStart := r.nameFragment }

/-- Gregorian leap-year test. -/
def isLeap (y : Int) : Bool :=
  y % 4 = 0 ∧ (y % 100 ≠ 0 ∨ y % 400 = 0)

/-- Modelled from the spec: subtraction of whole years from a date
(§4.4): the year is decremented and a February 29 that lands in a
non-leap year resolves to February 28, never to March. -/
def subYears (d : Date) (n : Nat) : Date :=
  let y := d.year - (n : Int)
  if d.month = 2 ∧ d.day = 29 ∧ ¬ isLeap y then ⟨y, 2, 28⟩
  else ⟨y, d.month, d.day⟩

/-- Zero-padded two-digit rendering of a month or day number. -/
def pad2 (n : Nat) : String :=
  if n < 10 then "0" ++ toString n else toString n

/-- ISO `YYYY-MM-DD` rendering of a date. -/
def fmtDate (d : Date) : String :=
  toString d.year ++ "-" ++ pad2 d.month ++ "-" ++ pad2 d.day

/-- `CompiledQuery` of the spec's data model (§3), matching the
`FHIRQueryResponse` record of `frontend/src/types/index.ts` historical
revisions: an optional Condition query, a Patient query, the success
flag and an optional error. -/
structure CompiledQuery where
  conditionQuery : Option String
  patientQuery : String
  success : Bool
  error : Option String
deriving DecidableEq, Repr

/-- Base URL of the FHIR server the queries target (README: the public
HAPI FHIR R4 test server). -/
def fhirBase : String := "https://hapi.fhir.org/baseR4"

/-- Modelled from the spec: birth-date bound parameters of the Query
Builder (§4.4): "over N" bounds the birth date strictly before
today − N years (a `lt` bound), "under N" strictly after (a `gt` bound),
and "between N and M" puts the birth date inclusively between
today − M years and today − N years (`ge` and `le` bounds). -/
def ageParams (age : Option AgeConstraint) (today : Date) : List String :=
  match age with
  | Option.none => []
  | some c =>
    match c.comparator, c.low, c.high with
    | .over, some n, _ => ["birthdate=lt" ++ fmtDate (subYears today n)]
    | .under, _, some n => ["birthdate=gt" ++ fmtDate (subYears today n)]
    | .between, some lo, some hi =>
      ["birthdate=ge" ++ fmtDate (subYears today hi),
       "birthdate=le" ++ fmtDate (subYears today lo)]
    | _, _, _ => []

/-- Modelled from the spec: the Patient-query search parameters of the
Query Builder (§4.4, backend `fhir_builder.py` missing), in the fixed
stable order condition-linkage (reverse-chaining), gender, birth-date
bounds, name prefix; each present only when its criterion is. -/
def buildParams (c : ParsedCriteria) (today : Date) : List String :=
  (match c.condition with
    | .entry e => ["_has:Condition:patient:code=" ++ e.codePrimary]
    | _ => []) ++
  (match c.gender with
    | .male => ["gender=male"]
    | .female => ["gender=female"]
    | .none => []) ++
  ageParams c.age today ++
  (match c.nameStart with
    | some s => ["name=" ++ s]
    | Option.none => [])

/-- The query-string suffix of the Patient search: empty for a full
scan, otherwise `?` plus the `&`-joined parameters. -/
def patientSuffix (c : ParsedCriteria) (today : Date) : String :=
  if buildParams c today = [] then "" else "?" ++ joinWith "&" (buildParams c today)

/-- Modelled from the spec: `build(criteria)` of the Query Builder
(§4.4, backend `fhir_builder.py` missing).  The UNSUPPORTED marker
returns the failure sentinel; otherwise a Patient query is always built
from the assembled parameters, and a Condition query is added when a
condition entry was resolved. -/
def build (c : ParsedCriteria) (today : Date) : CompiledQuery :=
  match c.condition with
  | .unsupported => ⟨Option.none, "", false, some "unsupported condition"⟩
  | .entry e =>
    ⟨some ("GET " ++ fhirBase ++ "/Condition?code=" ++ e.codePrimary),
      "GET " ++ fhirBase ++ "/Patient" ++ patientSuffix c today, true, Option.none⟩
  | .none =>
    ⟨Option.none, "GET " ++ fhirBase ++ "/Patient" ++ patientSuffix c today,
      true, Option.none⟩

/-- Modelled from the spec: `compile(raw_text)` of the Orchestrator
(§4.5, backend `nlp_service.py` missing): the three stages composed in
sequence, with the build-time date made an explicit argument. -/
def compile (text : String) (today : Date) : CompiledQuery :=
  build (parseEntities (recognize text)) today

/-- The failure sentinel of §4.4/§7 for a condition mention absent from
the vocabulary. -/
def unsupportedResult : CompiledQuery :=
  ⟨Option.none, "", false, some "unsupported condition"⟩

theorem parseEntities_condition_unsupported (r : RecognizedEntities) (m : String)
    (hm : r.conditionMention = some m) (hl : lookupCondition m = Option.none) :
    (parseEntities r).condition = ConditionSlot.unsupported := by
  simp [parseEntities, hm, hl]

theorem build_unsupported (c : ParsedCriteria) (today : Date)
    (h : c.condition = ConditionSlot.unsupported) :
    build c today = unsupportedResult := by
  rcases c with ⟨cs, age, g, nm⟩
  simp only [ParsedCriteria.condition] at h
  subst h
  rfl

/-- C1.  For every input whose condition mention is not resolvable by the
vocabulary, the pipeline returns success=false, error "unsupported
condition", no condition query, and an empty patient query; and this
outcome is distinguishable in the result value from any successful
result (in particular a success with empty data) and from any result
carrying a different error. -/
theorem c1_unsupported_condition_sentinel (t : String) (today : Date) (m : String)
    (hm : (recognize t).conditionMention = some m)
    (hl : lookupCondition m = Option.none) :
    compile t today = unsupportedResult ∧
    (compile t today).success = false ∧
    (compile t today).conditionQuery = Option.none ∧
    (compile t today).patientQuery = "" ∧
    (compile t today).error = some "unsupported condition" ∧
    (∀ r : CompiledQuery, r.success = true → compile t today ≠ r) ∧
    (∀ r : CompiledQuery, r.error ≠ some "unsupported condition" → compile t today ≠ r) := by
  have hc : (parseEntities (recognize t)).condition = ConditionSlot.unsupported :=
    parseEntities_condition_unsupported _ m hm hl
  have hbuild : compile t today = unsupportedResult := build_unsupported _ today hc
  refine ⟨hbuild, ?_, ?_, ?_, ?_, ?_, ?_⟩
  · rw [hbuild]; rfl
  · rw [hbuild]; rfl
  · rw [hbuild]; rfl
  · rw [hbuild]; rfl
  · intro r hr hEq
    rw [hbuild] at hEq
    rw [← hEq] at hr
    exact Bool.false_ne_true hr
  · intro r hr hEq
    rw [hbuild] at hEq
    rw [← hEq] at hr
    exact hr rfl

/-- C1 witness: a concrete unlisted condition mention. -/
theorem c1_witness :
    compile "Find patients that are male with a rare unlisted illness" ⟨2026, 10, 11⟩ =
      unsupportedResult :=
  (c1_unsupported_condition_sentinel
    "Find patients that are male with a rare unlisted illness" ⟨2026, 10, 11⟩
    "illness" (by decide) (by decide)).1

/-- C2.  Every stage of the pipeline is a total function in this
embedding; the composed `compile` is exactly the sequence
recognize → parse → build on every input string, and every input —
including empty, whitespace-only, or malformed text — yields a definite
result structure: either a success carrying no error or the single
unsupported-condition failure sentinel.  No other outcome (and in
particular no exception) exists. -/
theorem c2_pipeline_total (t : String) (today : Date) :
    compile t today = build (parseEntities (recognize t)) today ∧
    (((compile t today).success = true ∧ (compile t today).error = Option.none) ∨
      compile t today = unsupportedResult) := by
  refine ⟨rfl, ?_⟩
  have hc : compile t today = build (parseEntities (recognize t)) today := rfl
  rcases hPE : parseEntities (recognize t) with ⟨cs, age, g, nm⟩
  rw [hPE] at hc
  cases cs with
  | unsupported => exact Or.inr (by rw [hc]; rfl)
  | entry e => exact Or.inl ⟨by rw [hc]; rfl, by rw [hc]; rfl⟩
  | none => exact Or.inl ⟨by rw [hc]; rfl, by rw [hc]; rfl⟩

/-- C3.  Age-to-birthdate conversion: "over N" emits exactly one
less-than birth-date bound at today − N years, "under N" exactly one
greater-than bound there; the computed bound date is N years before the
build-time date in the sense of the repository's own `calculateAge`
(frontend `types/fhir.ts`): its age at `today` is exactly N; and
subtracting years from a February 29 date resolves to February 28 in
non-leap target years, never to March. -/
theorem c3_age_birthdate_bounds (today : Date) (N : Nat) (y : Int) (M : Nat)
    (hleap : isLeap (y - (M : Int)) = false) :
    ageParams (some ⟨.over, some N, Option.none⟩) today =
      ["birthdate=lt" ++ fmtDate (subYears today N)] ∧
    ageParams (some ⟨.under, Option.none, some N⟩) today =
      ["birthdate=gt" ++ fmtDate (subYears today N)] ∧
    (build ⟨.none, some ⟨.over, some N, Option.none⟩, .none, Option.none⟩ today).patientQuery =
      "GET " ++ fhirBase ++ "/Patient" ++ ("?" ++ ("birthdate=lt" ++ fmtDate (subYears today N))) ∧
    calculateAge (subYears today N) today = (N : Int) ∧
    subYears ⟨y, 2, 29⟩ M = ⟨y - (M : Int), 2, 28⟩ ∧
    (subYears ⟨y, 2, 29⟩ M).month = 2 ∧ (subYears ⟨y, 2, 29⟩ M).day = 28 := by
  have hsub : subYears ⟨y, 2, 29⟩ M = ⟨y - (M : Int), 2, 28⟩ := by
    simp [subYears, hleap]
  refine ⟨rfl, rfl, rfl, ?_, hsub, by rw [hsub], by rw [hsub]⟩
  rcases today with ⟨ty, tm, td⟩
  simp only [subYears]
  split
  case isTrue hcl =>
    obtain ⟨h1, h2, h3⟩ := hcl
    subst h1
    subst h2
    simp [calculateAge]
  case isFalse hcl =>
    simp [calculateAge]

/-- C3 witness: over-50 bound from 2026-10-11, and 2024-02-29 minus one
year clamps to 2023-02-28. -/
theorem c3_witness :
    calculateAge (subYears ⟨2026, 10, 11⟩ 50) ⟨2026, 10, 11⟩ = (50 : Int) ∧
    subYears ⟨2024, 2, 29⟩ 1 = ⟨2023, 2, 28⟩ := by
  have h := c3_age_birthdate_bounds ⟨2026, 10, 11⟩ 50 2024 1 (by decide)
  exact ⟨h.2.2.2.1, h.2.2.2.2.1⟩

/-- C4.  Every successful compile result carries a Patient query string:
it is the Patient resource search (base URL plus `/Patient`) with some,
possibly empty, parameter suffix — in particular it is nonempty. -/
theorem c4_success_has_patient_query (t : String) (today : Date)
    (h : (compile t today).success = true) :
    (∃ rest : String,
      (compile t today).patientQuery = "GET " ++ fhirBase ++ "/Patient" ++ rest) ∧
    (compile t today).patientQuery ≠ "" := by
  have hc : compile t today = build (parseEntities (recognize t)) today := rfl
  rcases hPE : parseEntities (recognize t) with ⟨cs, age, g, nm⟩
  rw [hPE] at hc
  have hform : ∃ rest : String,
      (compile t today).patientQuery = "GET " ++ fhirBase ++ "/Patient" ++ rest := by
    cases cs with
    | unsupported =>
      rw [hc] at h
      simp only [build] at h
      exact (Bool.false_ne_true h).elim
    | entry e =>
      exact ⟨patientSuffix ⟨ConditionSlot.entry e, age, g, nm⟩ today, by rw [hc]; rfl⟩
    | none =>
      exact ⟨patientSuffix ⟨ConditionSlot.none, age, g, nm⟩ today, by rw [hc]; rfl⟩
  refine ⟨hform, ?_⟩
  obtain ⟨rest, hrest⟩ := hform
  intro hempty
  rw [hrest] at hempty
  have hlen := congrArg String.length hempty
  rw [String.length_append] at hlen
  have h40 : ("GET " ++ fhirBase ++ "/Patient").length = 40 := by decide
  have h0 : ("" : String).length = 0 := rfl
  rw [h40, h0] at hlen
  omega

/-- C4 witness: the empty input compiles successfully and carries a
nonempty Patient query. -/
theorem c4_witness :
    (∃ rest : String,
      (compile "" ⟨2026, 10, 11⟩).patientQuery = "GET " ++ fhirBase ++ "/Patient" ++ rest) ∧
    (compile "" ⟨2026, 10, 11⟩).patientQuery ≠ "" :=
  c4_success_has_patient_query "" ⟨2026, 10, 11⟩ rfl

/-- The unconstrained full-scan result of §4.4: no condition query, a
bare Patient search, success, no error. -/
def fullScanResult : CompiledQuery :=
  ⟨Option.none, "GET " ++ fhirBase ++ "/Patient", true, Option.none⟩

/-- C5.  When no condition, age, gender or name criterion is recognized,
compile succeeds with the unconstrained full-scan Patient query and no
condition query; the empty and whitespace-only inputs are such inputs. -/
theorem c5_no_criteria_full_scan :
    (∀ (t : String) (today : Date),
      recognize t = ⟨Option.none, Option.none, Gender.none, Option.none⟩ →
      compile t today = fullScanResult) ∧
    (∀ today : Date,
      compile "" today = fullScanResult ∧ compile "   " today = fullScanResult) := by
  constructor
  · intro t today h
    have hc : compile t today = build (parseEntities (recognize t)) today := rfl
    rw [h] at hc
    rw [hc]
    rfl
  · intro today
    exact ⟨rfl, rfl⟩

/-- C5 witness: the empty input produces the full-scan result. -/
theorem c5_witness : compile "" ⟨2026, 10, 11⟩ = fullScanResult :=
  (c5_no_criteria_full_scan.1 "" ⟨2026, 10, 11⟩ (by decide))

/-- C6 counterexample.  The claim quantifies over every pair of positive
integers N and M, but at N = M = 50 a "between 50 and 50" expression
yields no `AgeConstraint` at all (the bounds are non-increasing even
after the swap, §7), not a between-constraint with low < high. -/
theorem c6_counterexample :
    findAge ["between", "50", "and", "50"] = Option.none ∧
    (parseEntities (recognize "patients between 50 and 50 years old")).age =
      Option.none := by
  exact ⟨by decide, by decide⟩

/-- C6 amended: for every pair of in-range (1..130), distinct age bounds,
a "between N and M" expression yields comparator=between with
low = min N M < high = max N M, identically for either input order.
(The range bound and distinctness are carried by the `ageNum`
hypotheses: out-of-range or equal bounds yield no constraint.) -/
theorem c6_between_normalizes (sN sM : String) (N M : Nat)
    (hN : ageNum sN = some N) (hM : ageNum sM = some M) (hne : N ≠ M) :
    findAge ["between", sN, "and", sM] =
      some ⟨.between, some (min N M), some (max N M)⟩ ∧
    min N M < max N M ∧
    findAge ["between", sN, "and", sM] = findAge ["between", sM, "and", sN] := by
  have hb : normTok "between" = "between" := by decide
  have ha : normTok "and" = "and" := by decide
  have h1 : findAge ["between", sN, "and", sM] =
      some ⟨.between, some (min N M), some (max N M)⟩ := by
    simp [findAge, scanAgePatterns, scanStep, hb, ha, hN, hM, mkBetween, hne]
  have h2 : findAge ["between", sM, "and", sN] =
      some ⟨.between, some (min M N), some (max M N)⟩ := by
    simp [findAge, scanAgePatterns, scanStep, hb, ha, hN, hM, mkBetween, Ne.symm hne]
  refine ⟨h1, ?_, ?_⟩
  · omega
  · rw [h1, h2, Nat.min_comm, Nat.max_comm]

/-- C6 witness: "between 10 and 5" normalizes to low 5, high 10. -/
theorem c6_witness :
    findAge ["between", "10", "and", "5"] =
      some ⟨Comparator.between, some 5, some 10⟩ := by
  have h := c6_between_normalizes "10" "5" 10 5 (by decide) (by decide) (by decide)
  exact h.1

theorem scanStep_none (t : String) (rest : List String)
    (h : ∀ x ∈ rest, ageNum x = Option.none) :
    scanStep t rest = Option.none := by
  rcases rest with _ | ⟨a, rest1⟩
  · simp [scanStep]
  · have ha : ageNum a = Option.none := h a (List.mem_cons_self a rest1)
    rcases rest1 with _ | ⟨c, rest2⟩
    · simp [scanStep, ha]
    · rcases rest2 with _ | ⟨b, rest3⟩
      · simp [scanStep, ha]
      · simp [scanStep, ha]

theorem scanAgePatterns_none (toks : List String)
    (h : ∀ t ∈ toks, ageNum t = Option.none) :
    scanAgePatterns toks = Option.none := by
  induction toks with
  | nil => rfl
  | cons t rest ih =>
    have hrest : ∀ x ∈ rest, ageNum x = Option.none :=
      fun x hx => h x (List.mem_cons_of_mem _ hx)
    simp only [scanAgePatterns, scanStep_none t rest hrest]
    exact ih hrest

theorem scanYearsNum_none (toks : List String)
    (h : ∀ t ∈ toks, ageNum t = Option.none) :
    scanYearsNum toks = Option.none := by
  induction toks with
  | nil => rfl
  | cons a tail ih =>
    have htail : ∀ x ∈ tail, ageNum x = Option.none :=
      fun x hx => h x (List.mem_cons_of_mem _ hx)
    have ha : ageNum a = Option.none := h a (List.mem_cons_self a tail)
    rcases tail with _ | ⟨b, _ | ⟨c, _ | ⟨d, r⟩⟩⟩
    · rfl
    · rfl
    · rfl
    · simp only [scanYearsNum, ha]
      exact ih htail

theorem findAge_none (toks : List String)
    (h : ∀ t ∈ toks, ageNum t = Option.none) :
    findAge toks = Option.none := by
  simp [findAge, scanAgePatterns_none toks h, yearsOfAgePattern,
    scanYearsNum_none toks h]

/-- C7.  A numeric token in a candidate age expression is accepted only
when it is a positive integer at most 130; a token list whose numeric
tokens are all rejected yields no age constraint at all; and the
condition, gender and name fields of `recognize` are computed by their
own extractors, independent of the age scan, so an out-of-range number
never disturbs them and never raises an error. -/
theorem c7_age_range_validation (t0 : String) (n : Nat) (toks : List String)
    (s : String)
    (hn : tokNat? t0 = some n) (hout : ¬(1 ≤ n ∧ n ≤ 130))
    (hall : ∀ t ∈ toks, ageNum t = Option.none) :
    ageNum t0 = Option.none ∧
    findAge toks = Option.none ∧
    (recognize s).conditionMention = findCondition (tokenize s) ∧
    (recognize s).genderToken = findGender (tokenize s) ∧
    (recognize s).nameFragment = findName (tokenize s) := by
  refine ⟨?_, findAge_none toks hall, rfl, rfl, rfl⟩
  simp [ageNum, hn, hout]

/-- C7 witness: the out-of-range number 200 is rejected and "over 200"
yields no age constraint. -/
theorem c7_witness :
    ageNum "200" = Option.none ∧ findAge ["over", "200"] = Option.none := by
  have h := c7_age_range_validation "200" 200 ["over", "200"] ""
    (by decide) (by decide) (by decide)
  exact ⟨h.1, h.2.1⟩

/-- C8.  `processPatients` is a map: the display list has the same
length and order as the input; and every display record's age is either
"-" or the decimal rendering of an integer in 1..100 — an absent birth
date, or a computed age that is zero, negative, or above 100, always
displays as "-". -/
theorem c8_processPatients_display (today : Date) (ps : List FHIRPatient)
    (p : FHIRPatient) :
    (processPatients today ps).length = ps.length ∧
    processPatients today ps = List.map (processPatient today) ps ∧
    ((processPatient today p).age = "-" ∨
      ∃ n : Int, 1 ≤ n ∧ n ≤ 100 ∧ (processPatient today p).age = toString n) ∧
    (p.birthDate = Option.none → (processPatient today p).age = "-") ∧
    (∀ b, p.birthDate = some b →
      ¬(0 < calculateAge b today ∧ calculateAge b today ≤ 100) →
      (processPatient today p).age = "-") := by
  refine ⟨by simp [processPatients], rfl, ?_, ?_, ?_⟩
  · rcases hbd : p.birthDate with _ | b
    · left
      simp [processPatient, hbd]
    · by_cases hca : 0 < calculateAge b today ∧ calculateAge b today ≤ 100
      · right
        refine ⟨calculateAge b today, by omega, hca.2, ?_⟩
        simp [processPatient, hbd, hca]
      · left
        simp [processPatient, hbd, hca]
  · intro h
    simp [processPatient, h]
  · intro b hb hnot
    simp [processPatient, hb, hnot]

/-- C8 witness: a patient without a birth date and a patient whose
computed age exceeds 100 both display "-". -/
theorem c8_witness :
    (processPatient ⟨2026, 10, 11⟩
      ⟨"p1", Option.none, Option.none, Option.none, Option.none, Option.none,
        Option.none⟩).age = "-" ∧
    (processPatient ⟨2026, 10, 11⟩
      ⟨"p2", Option.none, Option.none, some ⟨1800, 1, 1⟩, Option.none,
        Option.none, Option.none⟩).age = "-" := by
  constructor
  · exact (c8_processPatients_display ⟨2026, 10, 11⟩ []
      ⟨"p1", Option.none, Option.none, Option.none, Option.none, Option.none,
        Option.none⟩).2.2.2.1 rfl
  · exact (c8_processPatients_display ⟨2026, 10, 11⟩ []
      ⟨"p2", Option.none, Option.none, some ⟨1800, 1, 1⟩, Option.none,
        Option.none, Option.none⟩).2.2.2.2 ⟨1800, 1, 1⟩ rfl (by decide)

theorem sumVals_append (a b : List (String × Nat)) :
    sumVals (a ++ b) = sumVals a + sumVals b := by
  simp [sumVals]

/-- C9.  `topNWithOther` returns at most topN + 1 entries; the values
always sum to the input total (the "Other" bucket conserves the
remainder); the first topN returned entries are in non-increasing value
order; and the "Other" bucket is appended, in last position, exactly
when the input has more than topN entries (a `Record`'s keys are
distinct, so its entry count is its number of distinct keys). -/
theorem c9_topNWithOther_conserves (counts : List (String × Nat)) (topN : Nat) :
    (topNWithOther counts topN).length ≤ topN + 1 ∧
    sumVals (topNWithOther counts topN) = sumVals counts ∧
    List.Sorted byValueDesc ((topNWithOther counts topN).take topN) ∧
    (counts.length ≤ topN →
      topNWithOther counts topN = List.insertionSort byValueDesc counts) ∧
    (topN < counts.length →
      topNWithOther counts topN =
        (List.insertionSort byValueDesc counts).take topN ++
          [("Other", sumVals ((List.insertionSort byValueDesc counts).drop topN))]) := by
  have hperm := List.perm_insertionSort byValueDesc counts
  have hlen := List.length_insertionSort byValueDesc counts
  have hsorted := List.sorted_insertionSort byValueDesc counts
  have hsum : sumVals (List.insertionSort byValueDesc counts) = sumVals counts := by
    unfold sumVals
    exact List.Perm.sum_eq (hperm.map Prod.snd)
  have happ : sumVals ((List.insertionSort byValueDesc counts).take topN) +
      sumVals ((List.insertionSort byValueDesc counts).drop topN) = sumVals counts := by
    rw [← hsum, ← sumVals_append, List.take_append_drop]
  by_cases hc : ((List.insertionSort byValueDesc counts).drop topN).length ≠ 0
  · have hlt : topN < counts.length := by
      have h2 := hc
      rw [List.length_drop, hlen] at h2
      omega
    have hres : topNWithOther counts topN =
        (List.insertionSort byValueDesc counts).take topN ++
          [("Other", sumVals ((List.insertionSort byValueDesc counts).drop topN))] := by
      simp only [topNWithOther]
      rw [if_pos hc]
    have htake_len : ((List.insertionSort byValueDesc counts).take topN).length = topN := by
      rw [List.length_take, hlen]
      omega
    refine ⟨?_, ?_, ?_, ?_, ?_⟩
    · rw [hres, List.length_append, htake_len]
      simp
    · rw [hres, sumVals_append]
      have hsingle : sumVals
          [("Other", sumVals ((List.insertionSort byValueDesc counts).drop topN))] =
          sumVals ((List.insertionSort byValueDesc counts).drop topN) := by
        simp [sumVals]
      rw [hsingle, happ]
    · rw [hres, List.take_append_of_le_length (le_of_eq htake_len.symm),
        List.take_take, Nat.min_self]
      exact List.Pairwise.sublist (List.take_sublist _ _) hsorted
    · intro hle
      omega
    · intro _
      exact hres
  · push_neg at hc
    have hle : counts.length ≤ topN := by
      rw [List.length_drop, hlen] at hc
      omega
    have hres : topNWithOther counts topN = List.insertionSort byValueDesc counts := by
      simp only [topNWithOther]
      rw [if_neg (by simp [hc]), List.take_of_length_le (by rw [hlen]; exact hle)]
    refine ⟨?_, ?_, ?_, ?_, ?_⟩
    · rw [hres, hlen]
      omega
    · rw [hres]
      exact hsum
    · rw [hres]
      exact List.Pairwise.sublist (List.take_sublist _ _) hsorted
    · intro _
      exact hres
    · intro hlt
      omega

/-- C9 witness: three entries with topN = 1 keep the largest and fold
the remainder into a trailing "Other" bucket conserving the total. -/
theorem c9_witness :
    topNWithOther [("a", 5), ("b", 3), ("c", 2)] 1 = [("a", 5), ("Other", 5)] ∧
    sumVals (topNWithOther [("a", 5), ("b", 3), ("c", 2)] 1) = 10 := by
  have h := c9_topNWithOther_conserves [("a", 5), ("b", 3), ("c", 2)] 1
  constructor
  · have he := h.2.2.2.2 (by decide)
    rw [he]
    decide
  · exact h.2.1.trans (by decide)

theorem takeWhile_append_all (p : Char → Bool) (w t : List Char)
    (hw : ∀ c ∈ w, p c = true) :
    (w ++ t).takeWhile p = w ++ t.takeWhile p := by
  induction w with
  | nil => simp
  | cons a w ih =>
    have ha : p a = true := hw a (List.mem_cons_self a w)
    simp only [List.cons_append, List.takeWhile_cons, ha, if_true]
    rw [ih (fun c hc => hw c (List.mem_cons_of_mem _ hc))]

theorem dropWhile_append_all (p : Char → Bool) (w t : List Char)
    (hw : ∀ c ∈ w, p c = true) :
    (w ++ t).dropWhile p = t.dropWhile p := by
  induction w with
  | nil => simp
  | cons a w ih =>
    have ha : p a = true := hw a (List.mem_cons_self a w)
    simp only [List.cons_append, List.dropWhile_cons, ha, if_true]
    exact ih (fun c hc => hw c (List.mem_cons_of_mem _ hc))

/-- A successful `\s+(.+)$` match after `GET` splits the remainder into a
nonempty whitespace run followed by the nonempty, line-terminator-free
captured text reaching the end. -/
theorem matchAfterGET_some (rest r : List Char) (h : matchAfterGET rest = some r) :
    ∃ w : List Char, rest = w ++ r ∧ w ≠ [] ∧
      (∀ c ∈ w, isJsWhitespace c = true) ∧ r ≠ [] ∧
      (∀ c ∈ r, isLineTerm c = false) := by
  unfold matchAfterGET at h
  by_cases hk : (rest.takeWhile isJsWhitespace).length = 0
  · rw [if_pos hk] at h
    exact Option.noConfusion h
  · rw [if_neg hk] at h
    have hwne : rest.takeWhile isJsWhitespace ≠ [] := by
      intro hnil
      rw [hnil] at hk
      exact hk rfl
    by_cases hs : rest.drop (rest.takeWhile isJsWhitespace).length ≠ []
    · rw [if_pos hs] at h
      by_cases hall : (rest.drop (rest.takeWhile isJsWhitespace).length).all
          (fun c => !isLineTerm c) = true
      · rw [if_pos hall] at h
        have hr : r = rest.drop (rest.takeWhile isJsWhitespace).length :=
          (Option.some.inj h).symm
        refine ⟨rest.takeWhile isJsWhitespace, ?_, hwne, ?_, ?_, ?_⟩
        · rw [hr]
          have htw : rest.takeWhile isJsWhitespace =
              rest.take (rest.takeWhile isJsWhitespace).length :=
            List.prefix_iff_eq_take.mp (List.takeWhile_prefix _)
          calc rest = rest.take (rest.takeWhile isJsWhitespace).length ++
                rest.drop (rest.takeWhile isJsWhitespace).length :=
                  (List.take_append_drop _ _).symm
            _ = rest.takeWhile isJsWhitespace ++
                rest.drop (rest.takeWhile isJsWhitespace).length := by rw [← htw]
        · exact fun c hc => List.mem_takeWhile_imp hc
        · rw [hr]; exact hs
        · intro c hc
          rw [hr] at hc
          have := List.all_eq_true.mp hall c hc
          simpa using this
      · rw [if_neg hall] at h
        exact Option.noConfusion h
    · rw [if_neg hs] at h
      push_neg at hs
      have hne : rest ≠ [] := by
        intro hnil
        rw [hnil] at hk
        exact hk rfl
      have hklen : rest.length ≤ (rest.takeWhile isJsWhitespace).length := by
        have := congrArg List.length hs
        rw [List.length_drop] at this
        simp at this
        omega
      have hallws : ∀ c ∈ rest, isJsWhitespace c = true := by
        have heq : rest.takeWhile isJsWhitespace = rest :=
          (List.takeWhile_prefix _).eq_of_length
            (le_antisymm (List.takeWhile_prefix _).length_le hklen)
        intro c hc
        rw [← heq] at hc
        exact List.mem_takeWhile_imp hc
      rcases hlast : rest.getLast? with _ | last
      · rw [hlast] at h
        exact Option.noConfusion h
      · rw [hlast] at h
        dsimp only at h
        by_cases hcond : 2 ≤ (rest.takeWhile isJsWhitespace).length ∧
            (!isLineTerm last) = true
        · rw [if_pos hcond] at h
          have hr : r = [last] := (Option.some.inj h).symm
          refine ⟨rest.dropLast, ?_, ?_, ?_, ?_, ?_⟩
          · rw [hr]
            have hgl : rest.getLast hne = last := by
              rw [← Option.some_inj, ← List.getLast?_eq_getLast rest hne, hlast]
            rw [← hgl]
            exact (List.dropLast_append_getLast hne).symm
          · intro hnil
            have h1 : rest.length - 1 = 0 := by
              rw [← List.length_dropLast, hnil]
              rfl
            have h2 : 2 ≤ rest.length :=
              le_trans hcond.1 (List.takeWhile_prefix _).length_le
            omega
          · exact fun c hc => hallws c ((List.dropLast_sublist rest).mem hc)
          · rw [hr]
            simp
          · intro c hc
            rw [hr] at hc
            simp at hc
            subst hc
            simpa using hcond.2
        · rw [if_neg hcond] at h
          exact Option.noConfusion h


/-- Any split of the post-`GET` remainder into a nonempty whitespace run
followed by nonempty line-terminator-free text makes the `\\s+(.+)$`
match succeed. -/
theorem matchAfterGET_exists (w tail : List Char) (hw : w ≠ [])
    (hws : ∀ c ∈ w, isJsWhitespace c = true) (ht : tail ≠ [])
    (hlt : ∀ c ∈ tail, isLineTerm c = false) :
    (matchAfterGET (w ++ tail)).isSome = true := by
  have hkpre : (w ++ tail).takeWhile isJsWhitespace =
      w ++ tail.takeWhile isJsWhitespace := takeWhile_append_all _ w tail hws
  have hw1 : 1 ≤ w.length :=
    Nat.one_le_iff_ne_zero.mpr (fun h0 => hw (List.length_eq_zero.mp h0))
  have ht1 : 1 ≤ tail.length :=
    Nat.one_le_iff_ne_zero.mpr (fun h0 => ht (List.length_eq_zero.mp h0))
  have hk : ¬ ((w ++ tail).takeWhile isJsWhitespace).length = 0 := by
    rw [hkpre, List.length_append]
    omega
  unfold matchAfterGET
  rw [if_neg hk]
  have htw : (w ++ tail).takeWhile isJsWhitespace =
      (w ++ tail).take ((w ++ tail).takeWhile isJsWhitespace).length :=
    List.prefix_iff_eq_take.mp (List.takeWhile_prefix _)
  have hdw : (w ++ tail).dropWhile isJsWhitespace =
      (w ++ tail).drop ((w ++ tail).takeWhile isJsWhitespace).length := by
    have hcan : (w ++ tail).takeWhile isJsWhitespace ++
        (w ++ tail).dropWhile isJsWhitespace =
        (w ++ tail).takeWhile isJsWhitespace ++
          (w ++ tail).drop ((w ++ tail).takeWhile isJsWhitespace).length := by
      rw [List.takeWhile_append_dropWhile]
      nth_rewrite 1 [htw]
      rw [List.take_append_drop]
    exact List.append_cancel_left hcan
  have hdw2 : (w ++ tail).dropWhile isJsWhitespace = tail.dropWhile isJsWhitespace :=
    dropWhile_append_all _ w tail hws
  by_cases hs : (w ++ tail).drop ((w ++ tail).takeWhile isJsWhitespace).length ≠ []
  · rw [if_pos hs]
    have hsub : ∀ c ∈ (w ++ tail).drop ((w ++ tail).takeWhile isJsWhitespace).length,
        isLineTerm c = false := by
      rw [← hdw, hdw2]
      intro c hc
      exact hlt c ((List.dropWhile_sublist _).mem hc)
    rw [if_pos (by rw [List.all_eq_true]; intro c hc; simp [hsub c hc])]
    rfl
  · rw [if_neg hs]
    push_neg at hs
    have hne : w ++ tail ≠ [] := by
      intro h0
      rw [List.append_eq_nil] at h0
      exact hw h0.1
    have hlen2 : 2 ≤ (w ++ tail).length := by
      rw [List.length_append]
      omega
    have hklen : (w ++ tail).length ≤ ((w ++ tail).takeWhile isJsWhitespace).length := by
      have hdropl := congrArg List.length hs
      rw [List.length_drop, List.length_nil] at hdropl
      omega
    have hlast_tail : (w ++ tail).getLast? = some (tail.getLast ht) := by
      rw [List.getLast?_append, List.getLast?_eq_getLast tail ht]
      rfl
    rw [hlast_tail]
    dsimp only
    rw [if_pos ⟨le_trans hlen2 hklen, by simp [hlt (tail.getLast ht) (List.getLast_mem ht)]⟩]
    rfl


/-- A successful leftmost `GET` scan decomposes the input around one
`GET` occurrence followed by whitespace and the returned capture. -/
theorem scanGET_some (cs r : List Char) (h : scanGET cs = some r) :
    ∃ pre w : List Char,
      cs = pre ++ ['G', 'E', 'T'] ++ w ++ r ∧ w ≠ [] ∧
      (∀ c ∈ w, isJsWhitespace c = true) ∧ r ≠ [] ∧
      (∀ c ∈ r, isLineTerm c = false) := by
  induction cs with
  | nil => exact Option.noConfusion h
  | cons c cs ih =>
    simp only [scanGET] at h
    by_cases hG : c = 'G' ∧ ['E', 'T'].isPrefixOf cs
    · rw [if_pos hG] at h
      obtain ⟨hc, hpre⟩ := hG
      subst hc
      obtain ⟨rest2, hrest⟩ := List.isPrefixOf_iff_prefix.mp hpre
      rcases hm2 : matchAfterGET (List.drop 2 cs) with _ | r2
      · rw [hm2] at h
        obtain ⟨pre, w, hcs, hw, hws, hr, hlt⟩ := ih h
        exact ⟨'G' :: pre, w, by simp [hcs], hw, hws, hr, hlt⟩
      · rw [hm2] at h
        have hr2 : r2 = r := Option.some.inj h
        subst hr2
        have hdrop : List.drop 2 cs = rest2 := by
          rw [← hrest]
          rfl
        rw [hdrop] at hm2
        obtain ⟨w, htw, hw, hws, hrne, hlt⟩ := matchAfterGET_some rest2 r2 hm2
        refine ⟨[], w, ?_, hw, hws, hrne, hlt⟩
        rw [← hrest, htw]
        simp
    · rw [if_neg hG] at h
      obtain ⟨pre, w, hcs, hw, hws, hr, hlt⟩ := ih h
      exact ⟨c :: pre, w, by simp [hcs], hw, hws, hr, hlt⟩

/-- Whenever the input contains a `GET` followed by whitespace and
nonempty line-terminator-free text reaching the end, the scan succeeds. -/
theorem scanGET_exists (cs : List Char)
    (h : ∃ pre w tail : List Char,
      cs = pre ++ ['G', 'E', 'T'] ++ w ++ tail ∧ w ≠ [] ∧
      (∀ c ∈ w, isJsWhitespace c = true) ∧ tail ≠ [] ∧
      (∀ c ∈ tail, isLineTerm c = false)) :
    (scanGET cs).isSome = true := by
  induction cs with
  | nil =>
    obtain ⟨pre, w, tail, heq, hw, hws, ht, hlt⟩ := h
    have hl := congrArg List.length heq
    simp [List.length_append] at hl
    have hw1 : 1 ≤ w.length :=
      Nat.one_le_iff_ne_zero.mpr (fun h0 => hw (List.length_eq_zero.mp h0))
    omega
  | cons c cs ih =>
    obtain ⟨pre, w, tail, heq, hw, hws, ht, hlt⟩ := h
    simp only [scanGET]
    by_cases hG : c = 'G' ∧ ['E', 'T'].isPrefixOf cs
    · rw [if_pos hG]
      rcases hm : matchAfterGET (List.drop 2 cs) with _ | r
      · cases pre with
        | nil =>
          simp only [List.nil_append, List.cons_append, List.cons.injEq] at heq
          have hdrop : List.drop 2 cs = w ++ tail := by
            rw [heq.2]
            rfl
          have hsome := matchAfterGET_exists w tail hw hws ht hlt
          rw [hdrop] at hm
          rw [hm] at hsome
          exact absurd hsome (by simp)
        | cons p pre2 =>
          simp only [List.cons_append, List.cons.injEq] at heq
          exact ih ⟨pre2, w, tail, heq.2, hw, hws, ht, hlt⟩
      · simp
    · rw [if_neg hG]
      cases pre with
      | nil =>
        exfalso
        simp only [List.nil_append, List.cons_append, List.cons.injEq] at heq
        apply hG
        refine ⟨heq.1, ?_⟩
        rw [heq.2]
        simp [List.isPrefixOf]
      | cons p pre2 =>
        simp only [List.cons_append, List.cons.injEq] at heq
        exact ih ⟨pre2, w, tail, heq.2, hw, hws, ht, hlt⟩


/-- The claim's stated success condition for `extractQueryUrl`: the input
contains "GET" followed by whitespace and at least one further character
extending to the end of the string (no condition on line terminators). -/
def ClaimGetShape (s : String) : Prop :=
  ∃ pre w tail : List Char,
    s.data = pre ++ ['G', 'E', 'T'] ++ w ++ tail ∧ w ≠ [] ∧
    (∀ c ∈ w, isJsWhitespace c = true) ∧ tail ≠ []

/-- The code's actual success condition: as the claim, but the final
stretch after the whitespace must also be free of line terminators
(JavaScript's `.` matches no line terminator and the regex ends in `$`). -/
def GetMatchShape (s : String) : Prop :=
  ∃ pre w tail : List Char,
    s.data = pre ++ ['G', 'E', 'T'] ++ w ++ tail ∧ w ≠ [] ∧
    (∀ c ∈ w, isJsWhitespace c = true) ∧ tail ≠ [] ∧
    (∀ c ∈ tail, isLineTerm c = false)

/-- C10 counterexample.  "GET a\nb" contains "GET" followed by
whitespace and further characters extending to the end of the string,
so the claim asserts a successful extraction — but the embedded line
terminator makes `(.+)$` fail and `extractQueryUrl` returns none. -/
theorem c10_counterexample :
    ClaimGetShape "GET a\nb" ∧ extractQueryUrl "GET a\nb" = Option.none := by
  constructor
  · exact ⟨[], [' '], ['a', '\n', 'b'], by decide, by decide, by decide, by decide⟩
  · decide

/-- C10 amended: `extractQueryUrl` returns some URL exactly when the
input contains "GET" followed by at least one whitespace character and
then nonempty text free of line terminators reaching the end of the
string; when `PatientTable` receives a non-blank query for which
extraction fails it reports "Invalid FHIR query format" and performs no
fetch; a blank (empty or all-whitespace) query produces no action at
all; and a successful extraction on a non-blank query leads to a fetch
of the extracted URL. -/
theorem c10_extract_and_table (s : String) (url : String) :
    ((extractQueryUrl s).isSome = true ↔ GetMatchShape s) ∧
    (¬ (s = "" ∨ s.data.all isJsWhitespace = true) → extractQueryUrl s = Option.none →
      tableEffect s = TableAction.reportError "Invalid FHIR query format") ∧
    ((s = "" ∨ s.data.all isJsWhitespace = true) → tableEffect s = TableAction.noAction) ∧
    (extractQueryUrl s = some url → ¬ (s = "" ∨ s.data.all isJsWhitespace = true) →
      tableEffect s = TableAction.fetchData url) := by
  have hrw : extractQueryUrl s = (scanGET s.data).map String.mk := rfl
  refine ⟨⟨?_, ?_⟩, ?_, ?_, ?_⟩
  · intro hsome
    rcases hscan : scanGET s.data with _ | r
    · rw [hrw, hscan] at hsome
      simp at hsome
    · obtain ⟨pre, w, hcs, hw, hws, hr, hlt⟩ := scanGET_some _ r hscan
      exact ⟨pre, w, r, hcs, hw, hws, hr, hlt⟩
  · intro hshape
    obtain ⟨pre, w, tail, heq, hw, hws, ht, hlt⟩ := hshape
    have hex := scanGET_exists s.data ⟨pre, w, tail, heq, hw, hws, ht, hlt⟩
    rw [hrw]
    rcases hscan : scanGET s.data with _ | r
    · rw [hscan] at hex
      simp at hex
    · simp
  · intro hblank hnone
    simp only [tableEffect]
    rw [if_neg hblank, hnone]
  · intro hblank
    simp only [tableEffect]
    rw [if_pos hblank]
  · intro hsome hblank
    simp only [tableEffect]
    rw [if_neg hblank, hsome]

/-- C10 witness: a non-blank query without a "GET" reports the invalid
format error; a well-formed "GET" query is extracted and fetched. -/
theorem c10_witness :
    tableEffect "bogus" = TableAction.reportError "Invalid FHIR query format" ∧
    (extractQueryUrl "GET https://x").isSome = true ∧
    tableEffect "GET https://x" = TableAction.fetchData "https://x" := by
  refine ⟨?_, ?_, ?_⟩
  · exact (c10_extract_and_table "bogus" "").2.1 (by decide) (by decide)
  · exact ((c10_extract_and_table "GET https://x" "").1).mpr
      ⟨[], [' '], "https://x".data, by decide, by decide, by decide, by decide,
        by decide⟩
  · exact (c10_extract_and_table "GET https://x" "https://x").2.2.2
      (by decide) (by decide)

end HQT

